import Mathlib

/-!
Verification of the RecipeManager extraction core
(`src/BackEnd/gram15_parser.py` together with the data classes of
`src/BackEnd/data_models.py`) against its natural-language specification.

The Python code is shallowly embedded:
* the dataclasses become Lean structures;
* `FifteenGramParser`'s methods become top-level functions;
* the single regular expression of `_parse_ingredient_line` is embedded as a
  small backtracking matcher (`mrun`) over an explicit pattern AST
  (`ingredientRE`) that mirrors the Python pattern token for token, with
  Python's leftmost / first-alternative / greedy-with-backtracking search
  order;
* the BeautifulSoup document is modelled as a tree of element/text nodes, and
  the handful of BeautifulSoup operations the parser uses (`find`, `find_all`,
  `select_one` with a descendant combinator, `get_text(strip=True)`) are
  implemented over that tree with BeautifulSoup's pre-order document-order
  semantics.

Character-class approximations (documented where used): Python's `\s`, `\d`,
`\w`, `str.strip`, `str.lower` are modelled on the alphabet actually exercised
by the parser's fixed vocabulary — ASCII letters, digits, underscore,
whitespace, and the eighteen Unicode vulgar-fraction glyphs (which are word
characters but not digits for Python's `re`, as the model reflects).
-/

namespace RecipeManager

/-- Whitespace characters, as recognised by Python's `str.strip`, `str.split`
and the regex class `\s` (ASCII subset; the parser's vocabulary and the
claims' inputs contain no exotic Unicode spaces). -/
def isPySpace (c : Char) : Bool :=
  c = ' ' || c = '\t' || c = '\n' || c = '\r' || c = '\x0b' || c = '\x0c'

/-- ASCII lower-casing, modelling `str.lower` and the effect of `re.I` on the
pattern's ASCII literals (written as a table so proofs can case on it). -/
def toLowerChar (c : Char) : Char :=
  match c with
  | 'A' => 'a' | 'B' => 'b' | 'C' => 'c' | 'D' => 'd' | 'E' => 'e'
  | 'F' => 'f' | 'G' => 'g' | 'H' => 'h' | 'I' => 'i' | 'J' => 'j'
  | 'K' => 'k' | 'L' => 'l' | 'M' => 'm' | 'N' => 'n' | 'O' => 'o'
  | 'P' => 'p' | 'Q' => 'q' | 'R' => 'r' | 'S' => 's' | 'T' => 't'
  | 'U' => 'u' | 'V' => 'v' | 'W' => 'w' | 'X' => 'x' | 'Y' => 'y'
  | 'Z' => 'z'
  | c => c

/-- The eighteen Unicode vulgar-fraction glyphs of the parser's fraction
table. -/
def fractionGlyphs : List Char :=
  ['¼', '½', '¾', '⅐', '⅑', '⅒', '⅓', '⅔', '⅕', '⅖', '⅗', '⅘',
   '⅙', '⅚', '⅛', '⅜', '⅝', '⅞']

/-- Word characters for the regex boundary `\b`: Python's `\w` restricted to
the alphabet the pattern can meet — ASCII alphanumerics, underscore, and the
vulgar-fraction glyphs (which are Unicode-alphanumeric, hence word characters
for Python's `re`, though they are not `\d` digits). -/
def isWordChar (c : Char) : Bool :=
  c.isAlphanum || c = '_' || fractionGlyphs.contains c

/-- `str.strip` on a character list. -/
def stripChars (l : List Char) : List Char :=
  ((l.dropWhile isPySpace).reverse.dropWhile isPySpace).reverse

/-- `str.strip`. -/
def pyStrip (s : String) : String := ⟨stripChars s.data⟩

/-- `str.lower`. -/
def toLowerStr (s : String) : String := ⟨s.data.map toLowerChar⟩

/-- `str.split(None, 1)`: split on runs of whitespace, at most once; leading
whitespace is ignored, the remainder (second element) keeps its trailing
whitespace, and a whitespace-only or empty string yields `[]`. -/
def pySplitOnce (s : String) : List String :=
  let l := s.data.dropWhile isPySpace
  match l with
  | [] => []
  | _ :: _ =>
    let tok := l.takeWhile (fun c => !isPySpace c)
    let rest := (l.dropWhile (fun c => !isPySpace c)).dropWhile isPySpace
    if rest = [] then [⟨tok⟩] else [⟨tok⟩, ⟨rest⟩]

/-! ## Data model (`src/BackEnd/data_models.py`) -/

/-- `IngredientData`: one parsed ingredient line. -/
structure IngredientData where
  raw_text : String
  amount : Option String := none
  unit : Option String := none
  name : Option String := none
deriving Repr, DecidableEq

/-- `CookbookEntryData`: recipe metadata.  The unused `price` field
(`Optional[float]`, never set by the parser) is not modelled, as floating
point plays no role in any claim. -/
structure CookbookEntryData where
  title : String
  description : String
  servings : String
  prep_time : String
  cuisine_origin : Option String := none
  file_location : Option String := none
  src_url : Option String := none
deriving Repr, DecidableEq

/-- `RecipeStepData`: a single instruction step. -/
structure RecipeStepData where
  step_number : Nat
  instruction : String
deriving Repr, DecidableEq

/-- `RecipeData`: the aggregate recipe record. -/
structure RecipeData where
  cookbook_entry_data : CookbookEntryData
  ingredients_data : List IngredientData
  instructions_data : List RecipeStepData
deriving Repr, DecidableEq

/-! ## The ingredient-line regular expression

The Python source compiles (with `re.I | re.X`) the pattern

```
^\s*
(\d+[\.,]?\d* |¼|½|¾|⅐|⅑|⅒|⅓|⅔|⅕|⅖|⅗|⅘|⅙|⅚|⅛|⅜|⅝|⅞ |een|hele|halve|half|snuifje)?
\s*
(teentje|teentjes|gr|g|kg|ml|cl|l|el|tl|kl|stuk|stuks|stukken|snuifje)?\b
[\.\s]*
(.*)$
```

and runs `regex.match(line)`.  The embedding represents this pattern as an
AST (`RE`) and a continuation-passing backtracking matcher (`mrun`) with
Python's search order: alternatives are tried left to right, quantifiers are
greedy and back off on failure, and the first complete match wins. -/

/-- Pattern AST.  `lit`/`litAlt` literals are stored lower-cased and matched
case-insensitively (the pattern is compiled with `re.I`). -/
inductive RE where
  | cls (p : Char → Bool)
  | lit (s : List Char)
  | litAlt (ss : List (List Char))
  | seq (a b : RE)
  | alt2 (a b : RE)
  | opt (a : RE)
  | star (p : Char → Bool)
  | plus (p : Char → Bool)
  | group (n : Nat) (a : RE)
  | wordB
  | endAnchor

/-- Case-insensitive literal match; returns the remaining input. -/
def litMatch : List Char → List Char → Option (List Char)
  | [], rest => some rest
  | _ :: _, [] => none
  | a :: ls, c :: cs => if toLowerChar c = a then litMatch ls cs else none

/-- Last character of the text consumed so far (for `\b`). -/
def newPrev (prev : Option Char) (consumed : List Char) : Option Char :=
  match consumed.getLast? with
  | some c => some c
  | none => prev

/-- First-success choice on optional results (backtracking order). -/
def ofirst (a : Option α) (b : Option α) : Option α :=
  match a with
  | some x => some x
  | none => b

/-- Length of the maximal prefix satisfying `p` (the greedy extent of a
character-class quantifier). -/
def runLen (p : Char → Bool) (l : List Char) : Nat :=
  (l.takeWhile p).length

/-- Captured groups: group index paired with the captured text. -/
abbrev Caps := List (Nat × List Char)

/-- Try consumption lengths `n, n-1, …, 0` (greedy `*`). -/
def tryLens (f : Nat → Option Caps) : Nat → Option Caps
  | 0 => f 0
  | n + 1 => ofirst (f (n + 1)) (tryLens f n)

/-- Try consumption lengths `n, n-1, …, 1` (greedy `+`); fails on `0`. -/
def tryLens1 (f : Nat → Option Caps) : Nat → Option Caps
  | 0 => none
  | n + 1 => ofirst (f (n + 1)) (tryLens1 f n)

def isWordOpt : Option Char → Bool
  | some c => isWordChar c
  | none => false

/-- `\b` holds between the previously consumed character and the next one. -/
def boundaryOk (prev : Option Char) (pos : List Char) : Bool :=
  isWordOpt prev != isWordOpt pos.head?

/-- Backtracking matcher.  `pos` is the remaining input, `prev` the character
just before it (for `\b`), `caps` the captures collected on the current
path, and `k` the continuation for the rest of the pattern.  `endAnchor`
models `$` without `re.M`: it succeeds at the end of the input or just
before a single final newline. -/
def mrun : RE → List Char → Option Char → Caps →
    (List Char → Option Char → Caps → Option Caps) → Option Caps
  | .cls p, pos, _, caps, k =>
    match pos with
    | [] => none
    | c :: cs => if p c then k cs (some c) caps else none
  | .lit s, pos, prev, caps, k =>
    match litMatch s pos with
    | some rest => k rest (newPrev prev (pos.take s.length)) caps
    | none => none
  | .litAlt ss, pos, prev, caps, k =>
    ss.findSome? fun s =>
      match litMatch s pos with
      | some rest => k rest (newPrev prev (pos.take s.length)) caps
      | none => none
  | .seq a b, pos, prev, caps, k =>
    mrun a pos prev caps fun pos' prev' caps' => mrun b pos' prev' caps' k
  | .alt2 a b, pos, prev, caps, k =>
    ofirst (mrun a pos prev caps k) (mrun b pos prev caps k)
  | .opt a, pos, prev, caps, k =>
    ofirst (mrun a pos prev caps k) (k pos prev caps)
  | .star p, pos, prev, caps, k =>
    tryLens (fun n => k (pos.drop n) (newPrev prev (pos.take n)) caps) (runLen p pos)
  | .plus p, pos, prev, caps, k =>
    tryLens1 (fun n => k (pos.drop n) (newPrev prev (pos.take n)) caps) (runLen p pos)
  | .group n a, pos, prev, caps, k =>
    mrun a pos prev caps fun pos' prev' caps' =>
      k pos' prev' ((n, pos.take (pos.length - pos'.length)) :: caps')
  | .wordB, pos, prev, caps, k =>
    if boundaryOk prev pos then k pos prev caps else none
  | .endAnchor, pos, prev, caps, k =>
    if pos = [] ∨ pos = ['\n'] then k pos prev caps else none

/-- Group 1's numeral alternative `\d+[\.,]?\d*` (Python's `\d` matches only
decimal digits; the vulgar-fraction glyphs are not digits). -/
def numeralRE : RE :=
  .seq (.plus Char.isDigit)
    (.seq (.opt (.cls fun c => c = '.' || c = ',')) (.star Char.isDigit))

/-- Group 1's literal alternatives, in the pattern's order: the eighteen
vulgar-fraction glyphs, then the qualitative quantity words. -/
def amountLits : List (List Char) :=
  [['¼'], ['½'], ['¾'], ['⅐'], ['⅑'], ['⅒'], ['⅓'], ['⅔'], ['⅕'], ['⅖'],
   ['⅗'], ['⅘'], ['⅙'], ['⅚'], ['⅛'], ['⅜'], ['⅝'], ['⅞'],
   "een".data, "hele".data, "halve".data, "half".data, "snuifje".data]

/-- Group 2's unit alternatives, in the pattern's order. -/
def unitLits : List (List Char) :=
  ["teentje".data, "teentjes".data, "gr".data, "g".data, "kg".data,
   "ml".data, "cl".data, "l".data, "el".data, "tl".data, "kl".data,
   "stuk".data, "stuks".data, "stukken".data, "snuifje".data]

/-- The pattern's tail `(teentje|…|snuifje)?\b[\.\s]*(.*)$`: the optional unit
group, the word boundary, the dot/space run, the name group, and the end
anchor. -/
def reUnitTail : RE :=
  .seq (.opt (.group 2 (.litAlt unitLits)))
  (.seq .wordB
  (.seq (.star fun c => c = '.' || isPySpace c)
  (.seq (.group 3 (.star fun c => c != '\n'))
  .endAnchor)))

/-- Everything after the amount group: `\s*` then `reUnitTail`. -/
def reAfterAmount : RE :=
  .seq (.star isPySpace) reUnitTail

/-- The full anchored pattern of `_parse_ingredient_line`:
`^\s*(amount)?` then `reAfterAmount`. -/
def ingredientRE : RE :=
  .seq (.star isPySpace)
  (.seq (.opt (.group 1 (.alt2 numeralRE (.litAlt amountLits))))
  reAfterAmount)

/-- No alternative of the pattern's amount group matches at the start of `l`:
the leading character is not a decimal digit (so the numeral alternative
fails) and no amount literal matches case-insensitively. -/
def noAmountAt (l : List Char) : Bool :=
  (match l with | [] => true | c :: _ => !c.isDigit) &&
  amountLits.all fun s => (litMatch s l).isNone

/-- No alternative of the pattern's unit group can be bound at the start of
`l`: each unit literal either fails to match or is followed by a word
character, so the `\b` after the group fails on it. -/
def noUnitAt (l : List Char) : Bool :=
  unitLits.all fun u =>
    match litMatch u l with
    | none => true
    | some [] => false
    | some (d :: _) => isWordChar d

/-- `regex.match(line)` and extraction of the three groups (`None` for a
group the winning path did not enter). -/
def reMatch (line : String) : Option (Option String × Option String × Option String) :=
  match mrun ingredientRE line.data none [] (fun _ _ caps => some caps) with
  | none => none
  | some caps =>
    some ((caps.lookup 1).map String.mk, (caps.lookup 2).map String.mk,
      (caps.lookup 3).map String.mk)

/-! ## `_parse_ingredient_line` and `_normalize_unit` -/

/-- The `fraction_map` table, verbatim from the source. -/
def fraction_map : List (String × String) :=
  [("¼", "0.25"), ("½", "0.5"), ("¾", "0.75"), ("⅐", "0.142857"),
   ("⅑", "0.111111"), ("⅒", "0.1"), ("⅓", "0.333333"), ("⅔", "0.666667"),
   ("⅕", "0.2"), ("⅖", "0.4"), ("⅗", "0.6"), ("⅘", "0.8"),
   ("⅙", "0.166667"), ("⅚", "0.833333"), ("⅛", "0.125"), ("⅜", "0.375"),
   ("⅝", "0.625"), ("⅞", "0.875")]

/-- The `unit_map` table, verbatim from the source. -/
def unit_map : List (String × String) :=
  [("gr", "g"), ("g", "g"), ("kg", "kg"), ("ml", "ml"), ("cl", "cl"),
   ("l", "l"), ("el", "el"), ("tl", "tl"), ("kl", "kl"), ("stuk", "stuks"),
   ("stuks", "stuks"), ("stukken", "stuks"), ("teentje", "teentje"),
   ("teentjes", "teentje"), ("snuifje", "snuifje")]

/-- `FifteenGramParser._normalize_unit`: `None` (and the empty string, which
is falsy) map to `None`; otherwise the stripped lower-cased key is looked up
in `unit_map`, unknown keys passing through unchanged. -/
def normalize_unit : Option String → Option String
  | none => none
  | some u =>
    if u = "" then none
    else
      let key := toLowerStr (pyStrip u)
      some ((unit_map.lookup key).getD key)

/-- `FifteenGramParser._parse_ingredient_line`.  On a regex match: group 1 is
the amount (replaced via `fraction_map` when it is a key there), group 2 is
normalized into the unit, group 3 stripped becomes the name (`None` when
group 3 is empty); then the fallback re-segmentation promotes the first
whitespace-separated token of the name to the unit when no unit was found,
an amount was found, the name is non-empty and splits into two parts, and
`_normalize_unit` of the first part is not `None`.  On a non-match the whole
line becomes the name. -/
def parseIngredientLine (line : String) : IngredientData :=
  let res : Option String × Option String × Option String :=
    match reMatch line with
    | some (g1, g2, g3) =>
      let amount := g1
      let unit := normalize_unit g2
      let name : Option String :=
        match g3 with
        | some t => if t = "" then none else some (pyStrip t)
        | none => none
      let amount := amount.map fun a => (fraction_map.lookup a).getD a
      let un : Option String × Option String :=
        if unit.isNone ∧ amount.isSome ∧ name.getD "" ≠ "" then
          match pySplitOnce (name.getD "") with
          | [p0, p1] =>
            if (normalize_unit (some p0)).isSome then
              (normalize_unit (some p0), some p1)
            else (unit, name)
          | _ => (unit, name)
        else (unit, name)
      (amount, un.1, un.2)
    | none => (none, none, some line)
  { raw_text := line, amount := res.1, unit := res.2.1, name := res.2.2 }

/-! ## Document tree model (BeautifulSoup interface)

The parser consumes the HTML through a parsed document: `find(tag, id=…)`,
`find(tag, class_=…)`, `find_all(tag)`, `select_one` with a descendant
combinator, and `get_text(strip=True)`.  The document is modelled as a list
of top-level nodes, each an element (tag, attributes, children) or a text
node; all traversals below use BeautifulSoup's pre-order document order. -/

inductive Node where
  | text (s : String)
  | elem (tag : String) (attrs : List (String × String)) (children : List Node)
deriving Repr

/-- A parsed document: the soup's top-level nodes. -/
abbrev Doc := List Node

def tagOf : Node → Option String
  | .text _ => none
  | .elem t _ _ => some t

def getAttr (n : Node) (key : String) : Option String :=
  match n with
  | .text _ => none
  | .elem _ attrs _ => attrs.lookup key

/-- The element's class list (the `class` attribute split on whitespace). -/
def classesOf (n : Node) : List String :=
  match getAttr n "class" with
  | none => []
  | some s => (s.data.splitOnP isPySpace).filterMap fun w =>
      if w = [] then none else some ⟨w⟩

def hasClass (n : Node) (c : String) : Bool :=
  (classesOf n).contains c

mutual
/-- Text fragments of a node's subtree, in document order. -/
def textPieces : Node → List String
  | .text s => [s]
  | .elem _ _ cs => textPiecesList cs

def textPiecesList : List Node → List String
  | [] => []
  | n :: ns => textPieces n ++ textPiecesList ns
end

/-- `get_text(strip=True)`: strip each text fragment, drop the ones that
become empty, concatenate. -/
def getTextStrip (n : Node) : String :=
  (((textPieces n).map pyStrip).filter fun s => s ≠ "").foldr (· ++ ·) ""

mutual
/-- First node satisfying `p` among `ns` and their descendants, in document
order (`soup.find`). -/
def findFirst (p : Node → Bool) : List Node → Option Node
  | [] => none
  | n :: ns =>
    if p n then some n
    else ofirst (findFirstIn p n) (findFirst p ns)

/-- First descendant of `n` satisfying `p` (`tag.find`: the node itself is
not considered). -/
def findFirstIn (p : Node → Bool) : Node → Option Node
  | .text _ => none
  | .elem _ _ cs => findFirst p cs
end

mutual
/-- All nodes satisfying `p` among `ns` and their descendants, in document
order (`find_all`). -/
def findAll (p : Node → Bool) : List Node → List Node
  | [] => []
  | n :: ns =>
    (if p n then [n] else []) ++ findAllIn p n ++ findAll p ns

/-- All descendants of `n` satisfying `p` (`tag.find_all`). -/
def findAllIn (p : Node → Bool) : Node → List Node
  | .text _ => []
  | .elem _ _ cs => findAll p cs
end

mutual
/-- `select_one "A B"` (descendant combinator): first element, in document
order, satisfying `p` that has a proper ancestor satisfying `anc`.  `inside`
records whether an `anc`-ancestor has been entered. -/
def selectUnder (anc p : Node → Bool) (inside : Bool) : List Node → Option Node
  | [] => none
  | n :: ns => ofirst (selectUnderIn anc p inside n) (selectUnder anc p inside ns)

def selectUnderIn (anc p : Node → Bool) (inside : Bool) : Node → Option Node
  | .text _ => none
  | .elem t a cs =>
    if inside && p (.elem t a cs) then some (.elem t a cs)
    else selectUnder anc p (inside || anc (.elem t a cs)) cs
end

/-! ## Page-level extraction (`FifteenGramParser`) -/

/-- `FifteenGramParser._parse_entry`.  Each field tries a primary selector
then a fallback, missing fields becoming `""`.  In the description branch
the source tests `hasattr(descr_tag, "get_text")`, which holds for every
BeautifulSoup `Tag`, so the matched node's text is always used (the
`content`-attribute branch is unreachable); the model reflects that. -/
def parse_entry (doc : Doc) (url : String) : CookbookEntryData :=
  let title_tag := ofirst
    (findFirst (fun n => tagOf n = some "h1" && hasClass n "text-center") doc)
    (findFirst (fun n => tagOf n = some "h1") doc)
  let title := match title_tag with
    | some t => getTextStrip t
    | none => ""
  let descr_tag := ofirst
    (selectUnder (fun n => hasClass n "recipe-description")
      (fun n => tagOf n = some "p") false doc)
    (findFirst (fun n => tagOf n = some "meta" && getAttr n "name" = some "description") doc)
  let description := match descr_tag with
    | some t => getTextStrip t
    | none => ""
  let yield_tag := ofirst
    (selectUnder (fun n => hasClass n "yield-container")
      (fun n => hasClass n "yield") false doc)
    (findFirst (fun n => tagOf n = some "span" && hasClass n "yield") doc)
  let servings := match yield_tag with
    | some t => getTextStrip t
    | none => ""
  let duration_tag := ofirst
    (selectUnder (fun n => hasClass n "duration-container")
      (fun n => hasClass n "duration") false doc)
    (findFirst (fun n => tagOf n = some "span" && hasClass n "duration") doc)
  let prep_time := match duration_tag with
    | some t => getTextStrip t
    | none => ""
  { title := title, description := description, servings := servings,
    prep_time := prep_time, src_url := some url }

/-- `FifteenGramParser._parse_ingredients_from_html` (and the
`_parse_ingredients` wrapper): locate `div#ingredients`, then its first
`ul`, then every `li` descendant; each item's stripped text is parsed when
non-empty, empty items being skipped. -/
def parse_ingredients (doc : Doc) : List IngredientData :=
  match findFirst (fun n => tagOf n = some "div" && getAttr n "id" = some "ingredients") doc with
  | none => []
  | some u =>
    match findFirstIn (fun n => tagOf n = some "ul") u with
    | none => []
    | some ul =>
      (findAllIn (fun n => tagOf n = some "li") ul).filterMap fun li =>
        if getTextStrip li ≠ "" then some (parseIngredientLine (getTextStrip li)) else none

/-- `FifteenGramParser._parse_instructions`: locate `div#preparation`, then
its first `ol`, then every `li` descendant; `enumerate(…, 1)` numbers the
items from 1 in document order, every item being recorded (the stripped text
may be empty). -/
def parse_instructions (doc : Doc) : List RecipeStepData :=
  match findFirst (fun n => tagOf n = some "div" && getAttr n "id" = some "preparation") doc with
  | none => []
  | some d =>
    match findFirstIn (fun n => tagOf n = some "ol") d with
    | none => []
    | some ol =>
      (findAllIn (fun n => tagOf n = some "li") ol).enum.map fun p =>
        { step_number := p.1 + 1, instruction := getTextStrip p.2 }

/-- `FifteenGramParser._is_valid_recipe`: non-empty stripped title, at least
one ingredient, at least one instruction.  (`entry` is a dataclass and hence
always truthy; a list is falsy exactly when it is empty.) -/
def is_valid_recipe (recipe : RecipeData) : Bool :=
  let entry := recipe.cookbook_entry_data
  if entry.title = "" || pyStrip entry.title = "" then false
  else if recipe.ingredients_data.isEmpty then false
  else if recipe.instructions_data.isEmpty then false
  else true

/-- `FifteenGramParser.parse` on an already-parsed document: assemble the
record from the three extractors (the source re-parses the same HTML string
for the ingredients, yielding the same document) and apply the validity
gate. -/
def parse (doc : Doc) (url : String) : Option RecipeData :=
  let cookbook_entry := parse_entry doc url
  let ingredients := parse_ingredients doc
  let instructions := parse_instructions doc
  let recipe : RecipeData :=
    { cookbook_entry_data := cookbook_entry, ingredients_data := ingredients,
      instructions_data := instructions }
  if is_valid_recipe recipe then some recipe else none

/-- Markup-parser failure (raised by the external HTML parser, outside this
repository). -/
structure MarkupError where
  message : String
deriving Repr, DecidableEq

/-- The full extraction call: `parse` begins with
`BeautifulSoup(html, "html.parser")`, an external collaborator; an exception
it raises propagates uncaught (the method has no `try`/`except`), modelled
by the `Except.error` case.  On a successfully parsed document the core
itself never raises. -/
def parse_call (parsed : Except MarkupError Doc) (url : String) :
    Except MarkupError (Option RecipeData) :=
  match parsed with
  | .error e => .error e
  | .ok doc => .ok (parse doc url)

/-! ## Concrete example documents -/

/-- The ingredient list of the sample document. -/
def sampleUl : Node :=
  .elem "ul" [] [
    .elem "li" [] [.text "200 gr kip"],
    .elem "li" [] [.text "  "],
    .elem "li" [] [.text "zout naar smaak"]]

/-- The ingredients container of the sample document. -/
def sampleIngredientsDiv : Node :=
  .elem "div" [("id", "ingredients")] [sampleUl]

/-- The instruction container of the sample document: three list items, the
second empty after trimming. -/
def samplePreparationDiv : Node :=
  .elem "div" [("id", "preparation")] [
    .elem "ol" [] [
      .elem "li" [] [.text "step one"],
      .elem "li" [] [.text "   "],
      .elem "li" [] [.text "step three"]]]

/-- A small recipe document. -/
def sampleDoc : Doc :=
  [.elem "html" [] [
    .elem "h1" [("class", "text-center")] [.text " Spaghetti "],
    sampleIngredientsDiv,
    samplePreparationDiv]]

/-- The record `parse` produces on `sampleDoc`. -/
def sampleRecipe : RecipeData :=
  { cookbook_entry_data :=
      { title := "Spaghetti", description := "", servings := "",
        prep_time := "", src_url := some "https://15gram.be/r" },
    ingredients_data :=
      [{ raw_text := "200 gr kip", amount := some "200", unit := some "g",
         name := some "kip" },
       { raw_text := "zout naar smaak", amount := none, unit := none,
         name := some "zout naar smaak" }],
    instructions_data :=
      [{ step_number := 1, instruction := "step one" },
       { step_number := 2, instruction := "" },
       { step_number := 3, instruction := "step three" }] }

/-! ## Helper lemmas -/

lemma pyStrip_empty : pyStrip "" = "" := rfl

/-- The validity gate, spelled out: non-empty-after-trim title (an empty
title strips to the empty string, so the two title tests collapse into
one), non-empty ingredients, non-empty instructions. -/
lemma is_valid_recipe_iff (r : RecipeData) :
    is_valid_recipe r = true ↔
      pyStrip r.cookbook_entry_data.title ≠ "" ∧
      r.ingredients_data ≠ [] ∧ r.instructions_data ≠ [] := by
  rcases r with ⟨e, ing, ins⟩
  unfold is_valid_recipe
  by_cases h1 : e.title = "" <;> by_cases h2 : pyStrip e.title = "" <;>
    by_cases h3 : ing = [] <;> by_cases h4 : ins = [] <;>
    simp_all [List.isEmpty_iff, pyStrip_empty]

lemma enumFrom_map_fst_succ {α : Type _} (l : List α) (s : Nat) :
    ((List.enumFrom s l).map fun p => p.1 + 1) = List.range' (s + 1) l.length := by
  induction l generalizing s with
  | nil => rfl
  | cons a l ih => simp [List.enumFrom, List.range', ih]

lemma enum_map_fst_succ {α : Type _} (l : List α) :
    (l.enum.map fun p => p.1 + 1) = List.range' 1 l.length := by
  simpa using enumFrom_map_fst_succ l 0

lemma ofirst_none {α : Type _} {b : Option α} : ofirst none b = b := rfl

lemma ofirst_some {α : Type _} {x : α} {b : Option α} : ofirst (some x) b = some x := rfl

lemma ofirst_isSome_right {α : Type _} {a b : Option α} (h : b.isSome = true) :
    (ofirst a b).isSome = true := by
  cases a <;> simp [ofirst, h]

lemma tryLens_top {f : Nat → Option Caps} {n : Nat} {v : Caps} (h : f n = some v) :
    tryLens f n = some v := by
  cases n <;> simp [tryLens, ofirst, h]

lemma tryLens_isSome {f : Nat → Option Caps} {m n : Nat} (hmn : m ≤ n)
    (h : (f m).isSome = true) : (tryLens f n).isSome = true := by
  induction n with
  | zero =>
    obtain rfl := Nat.le_zero.mp hmn
    simpa [tryLens] using h
  | succ n ih =>
    rcases Nat.eq_or_lt_of_le hmn with rfl | hlt
    · obtain ⟨v, hv⟩ := Option.isSome_iff_exists.mp h
      simp [tryLens, hv, ofirst]
    · simp only [tryLens]
      exact ofirst_isSome_right (ih (Nat.lt_succ_iff.mp hlt))

lemma newPrev_nil {prev : Option Char} : newPrev prev [] = prev := rfl

lemma not_word_of_pySpace {c : Char} (h : isPySpace c = true) : isWordChar c = false := by
  simp only [isPySpace, Bool.or_eq_true, decide_eq_true_eq] at h
  rcases h with ((((rfl | rfl) | rfl) | rfl) | rfl) | rfl <;> rfl

lemma not_pySpace_of_word {c : Char} (h : isWordChar c = true) : isPySpace c = false := by
  cases hs : isPySpace c
  · rfl
  · rw [not_word_of_pySpace hs] at h
    cases h

lemma word_not_dot_class {c : Char} (h : isWordChar c = true) :
    (decide (c = '.') || isPySpace c) = false := by
  have hc : c ≠ '.' := by
    rintro rfl
    exact absurd h (by decide)
  simp [hc, not_pySpace_of_word h]

lemma isWordChar_toLowerChar (c : Char) : isWordChar (toLowerChar c) = isWordChar c := by
  unfold toLowerChar
  split <;> rfl

lemma isWordOpt_newPrev_space {prev : Option Char} (hprev : isWordOpt prev = false)
    {ws : List Char} (hws : ∀ x ∈ ws, isPySpace x = true) :
    isWordOpt (newPrev prev ws) = false := by
  unfold newPrev
  cases hl : ws.getLast? with
  | none => exact hprev
  | some x =>
    have hx : x ∈ ws := List.mem_of_mem_getLast? hl
    simp [isWordOpt, not_word_of_pySpace (hws x hx)]

lemma litMatch_some_decomp {s pos rest : List Char} (h : litMatch s pos = some rest) :
    ∃ m, pos = m ++ rest ∧ m.map toLowerChar = s := by
  induction s generalizing pos with
  | nil =>
    simp only [litMatch, Option.some_inj] at h
    exact ⟨[], by simp [h], rfl⟩
  | cons a as ih =>
    cases pos with
    | nil => simp [litMatch] at h
    | cons c cs =>
      by_cases hc : toLowerChar c = a
      · simp only [litMatch, if_pos hc] at h
        obtain ⟨m, hm, hml⟩ := ih h
        exact ⟨c :: m, by simp [hm], by simp [hml, hc]⟩
      · simp [litMatch, hc] at h

lemma takeWhile_append_cons {p : Char → Bool} {ws : List Char} {c : Char} {cs : List Char}
    (hws : ∀ x ∈ ws, p x = true) (hc : p c = false) :
    (ws ++ c :: cs).takeWhile p = ws := by
  induction ws with
  | nil => simp [List.takeWhile_cons, hc]
  | cons a l ih =>
    have ha := hws a (by simp)
    simp only [List.cons_append, List.takeWhile_cons, ha, if_true]
    rw [ih fun x hx => hws x (by simp [hx])]

lemma dropWhile_all_append {p : Char → Bool} {ws : List Char} (rest : List Char)
    (hws : ∀ x ∈ ws, p x = true) :
    (ws ++ rest).dropWhile p = rest.dropWhile p := by
  induction ws with
  | nil => rfl
  | cons a l ih =>
    have ha := hws a (by simp)
    simp only [List.cons_append, List.dropWhile_cons, ha, if_true]
    exact ih fun x hx => hws x (by simp [hx])

lemma takeWhile_eq_self_of_all {p : Char → Bool} {l : List Char}
    (h : ∀ x ∈ l, p x = true) : l.takeWhile p = l := by
  induction l with
  | nil => rfl
  | cons a t ih =>
    simp only [List.takeWhile_cons, h a (by simp), if_true]
    rw [ih fun x hx => h x (by simp [hx])]

lemma runLen_append_cons {ws : List Char} {c : Char} {cs : List Char} {p : Char → Bool}
    (hws : ∀ x ∈ ws, p x = true) (hc : p c = false) :
    runLen p (ws ++ c :: cs) = ws.length := by
  simp [runLen, takeWhile_append_cons hws hc]

lemma runLen_cons_zero {p : Char → Bool} {c : Char} {cs : List Char} (hc : p c = false) :
    runLen p (c :: cs) = 0 := by
  simp [runLen, List.takeWhile_cons, hc]

lemma runLen_all {p : Char → Bool} {l : List Char} (h : ∀ x ∈ l, p x = true) :
    runLen p l = l.length := by
  simp [runLen, takeWhile_eq_self_of_all h]

lemma stripChars_ws_append {ws rest : List Char} (hws : ∀ x ∈ ws, isPySpace x = true) :
    stripChars (ws ++ rest) = stripChars rest := by
  unfold stripChars
  rw [dropWhile_all_append rest hws]

lemma mrun_numeral_none {c : Char} {cs : List Char} {prev : Option Char} {caps : Caps}
    {k : List Char → Option Char → Caps → Option Caps} (hc : c.isDigit = false) :
    mrun numeralRE (c :: cs) prev caps k = none := by
  simp [numeralRE, mrun, runLen_cons_zero hc, tryLens1]

lemma unitLits_words : ∀ u ∈ unitLits, ∀ a ∈ u, isWordChar a = true := by decide

lemma unitLits_ne_nil : ∀ u ∈ unitLits, u ≠ [] := by decide

lemma mem_word_of_map_toLower {m u : List Char} (hml : m.map toLowerChar = u)
    (hu : ∀ a ∈ u, isWordChar a = true) : ∀ x ∈ m, isWordChar x = true := by
  intro x hx
  have hmem : toLowerChar x ∈ u := hml ▸ List.mem_map_of_mem _ hx
  have hw := hu _ hmem
  rwa [isWordChar_toLowerChar] at hw

lemma findSome?_cons_none {a : Type _} {b : Type _} {f : a → Option b} {x : a} {xs : List a}
    (h : f x = none) : List.findSome? f (x :: xs) = List.findSome? f xs := by
  simp [List.findSome?_cons, h]

lemma findSome?_single {a : Type _} {b : Type _} {f : a → Option b} {x : a} :
    List.findSome? f [x] = f x := by
  cases h : f x <;> simp [List.findSome?_cons, h]

lemma take_sub_of_append {m rest : List Char} :
    (m ++ rest).take ((m ++ rest).length - rest.length) = m := by
  rw [List.length_append, Nat.add_sub_cancel, List.take_left]

/-- On a position starting with a word character where no unit alternative
can be bound, the pattern tail matches the whole remainder as group 3. -/
lemma unitTail_no_unit {c : Char} {cs : List Char} {prev : Option Char} {caps : Caps}
    (hw : isWordChar c = true)
    (hnu : noUnitAt (c :: cs) = true)
    (hprev : isWordOpt prev = false)
    (hnl : ¬ '\n' ∈ c :: cs) :
    mrun reUnitTail (c :: cs) prev caps
      (fun _ _ caps' => some caps') = some ((3, c :: cs) :: caps) := by
  simp only [noUnitAt, List.all_eq_true] at hnu
  simp only [reUnitTail, mrun]
  rw [List.findSome?_eq_none_iff.mpr ?hnone]
  case hnone =>
    intro u hu
    cases hlm : litMatch u (c :: cs) with
    | none => simp only [hlm]
    | some rest =>
      simp only [hlm]
      obtain ⟨m, hmeq, hml⟩ := litMatch_some_decomp hlm
      have hmne : m ≠ [] := by
        intro h0
        apply unitLits_ne_nil u hu
        rw [← hml, h0]
        rfl
      have hmword : ∀ x ∈ m, isWordChar x = true :=
        mem_word_of_map_toLower hml (unitLits_words u hu)
      have htake : List.take u.length (c :: cs) = m := by
        rw [hmeq, show u.length = m.length by rw [← hml, List.length_map], List.take_left]
      have hB := hnu u hu
      rw [hlm] at hB
      cases rest with
      | nil => simp at hB
      | cons d ds =>
        have hd : isWordChar d = true := hB
        have hbound : boundaryOk (newPrev prev (List.take u.length (c :: cs))) (d :: ds)
            = false := by
          rw [htake]
          unfold newPrev
          cases hgl : m.getLast? with
          | none => exact absurd (List.getLast?_eq_none_iff.mp hgl) hmne
          | some x =>
            have hx : x ∈ m := List.mem_of_mem_getLast? hgl
            unfold boundaryOk
            rw [List.head?_cons]
            show (isWordChar x != isWordChar d) = false
            rw [hmword x hx, hd]
            rfl
        rw [hbound]
        simp
  rw [ofirst_none]
  have hb : boundaryOk prev (c :: cs) = true := by
    unfold boundaryOk
    rw [hprev, List.head?_cons]
    show (false != isWordChar c) = true
    rw [hw]
    rfl
  have hdots : runLen (fun ch => decide (ch = '.') || isPySpace ch) (c :: cs) = 0 :=
    runLen_cons_zero (word_not_dot_class hw)
  simp only [hb, if_true, hdots, tryLens, List.drop_zero]
  have hall : ∀ x ∈ c :: cs, (x != '\n') = true := by
    intro x hx
    simp only [bne_iff_ne, ne_eq]
    rintro rfl
    exact hnl hx
  rw [runLen_all hall]
  apply tryLens_top
  simp [List.drop_length]

/-- `reAfterAmount` on the same kind of position: the `\s*` consumes nothing
and the tail takes over. -/
lemma afterAmount_no_unit {c : Char} {cs : List Char} {prev : Option Char} {caps : Caps}
    (hw : isWordChar c = true)
    (hnu : noUnitAt (c :: cs) = true)
    (hprev : isWordOpt prev = false)
    (hnl : ¬ '\n' ∈ c :: cs) :
    mrun reAfterAmount (c :: cs) prev caps
      (fun _ _ caps' => some caps') = some ((3, c :: cs) :: caps) := by
  simp only [reAfterAmount, mrun.eq_5, mrun.eq_8,
    runLen_cons_zero (not_pySpace_of_word hw), tryLens,
    List.drop_zero, List.take_zero, newPrev_nil]
  exact unitTail_no_unit hw hnu hprev hnl

/-- A line of leading whitespace followed by a name that can be mistaken for
neither an amount nor a unit matches with groups 1 and 2 unbound and
group 3 holding the whole name. -/
lemma reMatch_name_only {line : String} {ws : List Char} {c : Char} {cs : List Char}
    (hdata : line.data = ws ++ c :: cs)
    (hws : ∀ x ∈ ws, isPySpace x = true)
    (hw : isWordChar c = true)
    (hna : noAmountAt (c :: cs) = true)
    (hnu : noUnitAt (c :: cs) = true)
    (hnl : ¬ '\n' ∈ c :: cs) :
    reMatch line = some (none, none, some ⟨c :: cs⟩) := by
  simp only [noAmountAt, Bool.and_eq_true, List.all_eq_true] at hna
  obtain ⟨hdig, hall⟩ := hna
  have hcd : c.isDigit = false := by
    have hh : (!c.isDigit) = true := hdig
    simpa using hh
  have hm : mrun ingredientRE line.data none [] (fun _ _ caps => some caps)
      = some [(3, c :: cs)] := by
    rw [hdata]
    simp only [ingredientRE, mrun.eq_5, mrun.eq_7, mrun.eq_8, mrun.eq_10, mrun.eq_6,
      mrun.eq_4]
    rw [runLen_append_cons hws (not_pySpace_of_word hw)]
    apply tryLens_top
    simp only [List.drop_left, List.take_left]
    rw [mrun_numeral_none hcd]
    rw [List.findSome?_eq_none_iff.mpr ?hnone]
    case hnone =>
      intro s hs
      have hsn := hall s hs
      cases hlm : litMatch s (c :: cs) with
      | none => simp only [hlm]
      | some r =>
        rw [hlm] at hsn
        simp at hsn
    rw [ofirst_none, ofirst_none]
    exact afterAmount_no_unit hw hnu (isWordOpt_newPrev_space (show isWordOpt none = false from rfl) hws) hnl
  unfold reMatch
  rw [hm]
  simp [List.lookup]

/-- After an amount matched, a single space and then a pure word on which no
unit can be bound: `\s*` takes the space and the tail takes the word. -/
lemma afterAmount_space_word {d : Char} {ds : List Char} {prev : Option Char} {caps : Caps}
    (hw : isWordChar d = true)
    (hnu : noUnitAt (d :: ds) = true)
    (hnl : ¬ '\n' ∈ d :: ds) :
    mrun reAfterAmount (' ' :: d :: ds) prev caps (fun _ _ caps' => some caps')
      = some ((3, d :: ds) :: caps) := by
  simp only [reAfterAmount, mrun.eq_5, mrun.eq_8]
  rw [show runLen isPySpace (' ' :: d :: ds) = 1 by
    simp [runLen, List.takeWhile_cons, not_pySpace_of_word hw,
      show isPySpace ' ' = true from rfl]]
  apply tryLens_top
  exact unitTail_no_unit hw hnu
    (show isWordOpt (newPrev prev (List.take 1 (' ' :: d :: ds))) = false from rfl) hnl

/-- A line `"snuifje " ++ w` with `w` a non-empty word that is not a unit
synonym: group 1 captures `snuifje`, group 2 stays unbound, group 3 is `w`. -/
lemma reMatch_snuifje {w : List Char} (hne : w ≠ [])
    (hword : ∀ x ∈ w, isWordChar x = true)
    (hnot : ∀ u ∈ unitLits, w.map toLowerChar ≠ u) :
    reMatch ("snuifje " ++ ⟨w⟩) = some (some "snuifje", none, some ⟨w⟩) := by
  obtain ⟨d, ds, rfl⟩ : ∃ d ds, w = d :: ds := by
    cases w with
    | nil => exact absurd rfl hne
    | cons d ds => exact ⟨d, ds, rfl⟩
  have hw : isWordChar d = true := hword d (by simp)
  have hnl : ¬ '\n' ∈ d :: ds := by
    intro hmem
    exact absurd (hword '\n' hmem) (by decide)
  have hnu : noUnitAt (d :: ds) = true := by
    simp only [noUnitAt, List.all_eq_true]
    intro u hu
    cases hlm : litMatch u (d :: ds) with
    | none => simp [hlm]
    | some rest =>
      obtain ⟨m, hmeq, hml⟩ := litMatch_some_decomp hlm
      cases rest with
      | nil =>
        exfalso
        apply hnot u hu
        rw [show (d :: ds) = m from by simpa using hmeq, hml]
      | cons e es =>
        simp only [hlm]
        have he : e ∈ d :: ds := by
          rw [hmeq]
          exact List.mem_append_right _ (by simp)
        exact hword e he
  have hdata : ("snuifje " ++ (⟨d :: ds⟩ : String)).data
      = 's' :: 'n' :: 'u' :: 'i' :: 'f' :: 'j' :: 'e' :: ' ' :: d :: ds := by
    rw [String.data_append]
    rfl
  unfold reMatch
  rw [hdata]
  simp only [ingredientRE, mrun.eq_5, mrun.eq_7, mrun.eq_8, mrun.eq_10, mrun.eq_6,
    mrun.eq_4]
  rw [runLen_cons_zero (show isPySpace 's' = false from rfl)]
  simp only [tryLens, List.drop_zero, List.take_zero, newPrev_nil]
  rw [mrun_numeral_none (show Char.isDigit 's' = false from rfl)]
  rw [ofirst_none]
  simp only [amountLits]
  iterate 22 rw [findSome?_cons_none (by rfl)]
  rw [findSome?_single]
  rw [show litMatch "snuifje".data
        ('s' :: 'n' :: 'u' :: 'i' :: 'f' :: 'j' :: 'e' :: ' ' :: d :: ds)
      = some (' ' :: d :: ds) from rfl]
  simp only []
  rw [show ('s' :: 'n' :: 'u' :: 'i' :: 'f' :: 'j' :: 'e' :: ' ' :: d :: ds)
      = "snuifje".data ++ (' ' :: d :: ds) from rfl]
  rw [take_sub_of_append]
  rw [afterAmount_space_word hw hnu hnl]
  rw [ofirst_some]
  simp [List.lookup]

/-- Any line whose first non-whitespace character is a word character (and
which contains no newline) matches the pattern. -/
lemma reMatch_isSome_of_word {line : String} {ws : List Char} {c : Char} {cs : List Char}
    (hdata : line.data = ws ++ c :: cs)
    (hws : ∀ x ∈ ws, isPySpace x = true)
    (hw : isWordChar c = true)
    (hnl : ¬ '\n' ∈ line.data) :
    (reMatch line).isSome = true := by
  have hnl2 : ¬ '\n' ∈ c :: cs := by
    intro hmem
    exact hnl (by rw [hdata]; exact List.mem_append_right _ hmem)
  have hm : (mrun ingredientRE line.data none []
      (fun _ _ caps => some caps)).isSome = true := by
    rw [hdata]
    simp only [ingredientRE, mrun.eq_5, mrun.eq_7, mrun.eq_8, mrun.eq_10, mrun.eq_6,
      mrun.eq_4]
    rw [runLen_append_cons hws (not_pySpace_of_word hw)]
    apply tryLens_isSome (Nat.le_refl _)
    simp only [List.drop_left, List.take_left]
    apply ofirst_isSome_right
    simp only [reAfterAmount, reUnitTail, mrun.eq_5, mrun.eq_7, mrun.eq_8, mrun.eq_10,
      mrun.eq_4, mrun.eq_11, mrun.eq_12]
    rw [runLen_cons_zero (not_pySpace_of_word hw)]
    simp only [tryLens, List.drop_zero, List.take_zero, newPrev_nil]
    apply ofirst_isSome_right
    have hb : boundaryOk (newPrev none ws) (c :: cs) = true := by
      unfold boundaryOk
      rw [isWordOpt_newPrev_space (show isWordOpt none = false from rfl) hws,
        List.head?_cons]
      show (false != isWordChar c) = true
      rw [hw]
      rfl
    rw [if_pos hb]
    rw [runLen_cons_zero (word_not_dot_class hw)]
    simp only [tryLens, List.drop_zero, List.take_zero]
    have hall : ∀ x ∈ c :: cs, (x != '\n') = true := by
      intro x hx
      simp only [bne_iff_ne, ne_eq]
      rintro rfl
      exact hnl2 hx
    rw [runLen_all hall]
    apply tryLens_isSome (Nat.le_refl _)
    simp [List.drop_length]
  obtain ⟨v, hv⟩ := Option.isSome_iff_exists.mp hm
  unfold reMatch
  rw [hv]
  simp

lemma stripChars_no_space {l : List Char} (h : ∀ x ∈ l, isPySpace x = false) :
    stripChars l = l := by
  have h1 : ∀ m : List Char, (∀ x ∈ m, isPySpace x = false) →
      m.dropWhile isPySpace = m := by
    intro m hm
    cases m with
    | nil => rfl
    | cons a t => simp [List.dropWhile_cons, hm a (by simp)]
  unfold stripChars
  rw [h1 l h, h1 l.reverse (fun x hx => h x (List.mem_reverse.mp hx)),
    List.reverse_reverse]

lemma pyStrip_no_space {s : String} (h : ∀ x ∈ s.data, isPySpace x = false) :
    pyStrip s = s := by
  unfold pyStrip
  rw [stripChars_no_space h]

lemma dropWhile_all_nil {p : Char → Bool} {l : List Char}
    (h : ∀ x ∈ l, p x = true) : l.dropWhile p = [] := by
  induction l with
  | nil => rfl
  | cons a t ih =>
    simp only [List.dropWhile_cons, h a (by simp), if_true]
    exact ih fun x hx => h x (by simp [hx])

lemma pySplitOnce_no_space {s : String} (hne : s.data ≠ [])
    (h : ∀ x ∈ s.data, isPySpace x = false) : pySplitOnce s = [s] := by
  have h1 : s.data.dropWhile isPySpace = s.data := by
    cases hd : s.data with
    | nil => rfl
    | cons a t => simp [List.dropWhile_cons, h a (by rw [hd]; simp)]
  have h2 : s.data.takeWhile (fun c => !isPySpace c) = s.data :=
    takeWhile_eq_self_of_all fun x hx => by simp [h x hx]
  have h3 : s.data.dropWhile (fun c => !isPySpace c) = [] :=
    dropWhile_all_nil fun x hx => by simp [h x hx]
  unfold pySplitOnce
  simp only [h1]
  cases hd : s.data with
  | nil => exact absurd hd hne
  | cons a t =>
    rw [← hd]
    simp only [h1, h2, h3, List.dropWhile_nil, if_pos rfl]
    rw [hd]
    simp only []
    rw [if_pos trivial, ← hd]

/-- Association-list lookup finds a member pair when the keys are distinct. -/
lemma lookup_of_mem {k v : String} :
    ∀ {l : List (String × String)}, (l.map Prod.fst).Nodup → (k, v) ∈ l →
      l.lookup k = some v := by
  intro l
  induction l with
  | nil => simp
  | cons p t ih =>
    intro hnd hm
    simp only [List.map_cons, List.nodup_cons] at hnd
    rcases List.mem_cons.mp hm with he | hm'
    · rw [← he]
      simp [List.lookup]
    · have hk : ¬ k = p.1 := by
        intro he
        exact hnd.1 (he ▸ List.mem_map_of_mem Prod.fst hm')
      simp only [List.lookup, beq_eq_false_iff_ne.mpr hk]
      exact ih hnd.2 hm'

/-- Looking up a pair of the fraction table. -/
lemma lookup_fraction {k v : String} (h : (k, v) ∈ fraction_map) :
    fraction_map.lookup k = some v :=
  lookup_of_mem (by decide) h

/-! ## Claim theorems -/

/-- Claim C1 (confirmed): for every document and URL, `parse` returns `none`
exactly when a gate condition fails (empty-after-trim title, empty
ingredient sequence, or empty instruction sequence), and every record it
does return satisfies all three gate conditions — no invalid record crosses
the core boundary. -/
theorem c1_validity_gate :
    (∀ (doc : Doc) (url : String),
      parse doc url = none ↔
        (pyStrip (parse_entry doc url).title = "" ∨
         parse_ingredients doc = [] ∨ parse_instructions doc = [])) ∧
    (∀ (doc : Doc) (url : String) (r : RecipeData), parse doc url = some r →
      pyStrip r.cookbook_entry_data.title ≠ "" ∧
      r.ingredients_data ≠ [] ∧ r.instructions_data ≠ []) := by
  constructor
  · intro doc url
    simp only [parse]
    split_ifs with h
    · rw [is_valid_recipe_iff] at h
      refine iff_of_false (by simp) ?_
      rintro (hx | hx | hx)
      · exact h.1 hx
      · exact h.2.1 hx
      · exact h.2.2 hx
    · rw [is_valid_recipe_iff] at h
      refine iff_of_true rfl ?_
      rcases not_and_or.mp h with h' | h'
      · exact Or.inl (not_not.mp h')
      · rcases not_and_or.mp h' with h'' | h''
        · exact Or.inr (Or.inl (not_not.mp h''))
        · exact Or.inr (Or.inr (not_not.mp h''))
  · intro doc url r hr
    simp only [parse] at hr
    split_ifs at hr with h
    cases hr
    exact (is_valid_recipe_iff _).mp h

/-- Witness for C1 at a concrete document that passes the gate. -/
theorem c1_witness :
    pyStrip sampleRecipe.cookbook_entry_data.title ≠ "" ∧
    sampleRecipe.ingredients_data ≠ [] ∧ sampleRecipe.instructions_data ≠ [] :=
  c1_validity_gate.2 sampleDoc "https://15gram.be/r" sampleRecipe (by decide)

/-- Claim C2, amended (corrected): `_parse_instructions` assigns step numbers
1, 2, 3, … in document order, but it records *every* list item — an item
whose text is empty after trimming is recorded as a step with empty
instruction text and consumes a step number, so a container with three list
items where the second is empty-after-trim yields three steps numbered
1, 2, 3 (not two). -/
theorem c2_step_numbering :
    (∀ doc : Doc,
      (parse_instructions doc).map (fun s => s.step_number) =
        List.range' 1 (parse_instructions doc).length) ∧
    (∀ (doc : Doc) (d ol : Node),
      findFirst (fun n => tagOf n = some "div" && getAttr n "id" = some "preparation") doc
        = some d →
      findFirstIn (fun n => tagOf n = some "ol") d = some ol →
      (parse_instructions doc).length =
        (findAllIn (fun n => tagOf n = some "li") ol).length) := by
  constructor
  · intro doc
    cases hd : findFirst
        (fun n => tagOf n = some "div" && getAttr n "id" = some "preparation") doc with
    | none =>
      have he : parse_instructions doc = [] := by
        unfold parse_instructions
        simp only [hd]
      rw [he]
      rfl
    | some d =>
      cases ho : findFirstIn (fun n => tagOf n = some "ol") d with
      | none =>
        have he : parse_instructions doc = [] := by
          unfold parse_instructions
          simp only [hd, ho]
        rw [he]
        rfl
      | some ol =>
        have he : parse_instructions doc =
            (findAllIn (fun n => tagOf n = some "li") ol).enum.map
              (fun p => { step_number := p.1 + 1, instruction := getTextStrip p.2 }) := by
          unfold parse_instructions
          simp only [hd, ho]
        rw [he]
        simp [List.map_map, Function.comp_def, List.enum_length, enum_map_fst_succ]
  · intro doc d ol hd hol
    have he : parse_instructions doc =
        (findAllIn (fun n => tagOf n = some "li") ol).enum.map
          (fun p => { step_number := p.1 + 1, instruction := getTextStrip p.2 }) := by
      unfold parse_instructions
      simp only [hd, hol]
    rw [he]
    simp only [List.length_map, List.enum_length]

/-- Witness for C2 at the sample document: three items, step numbers
1, 2, 3. -/
theorem c2_witness :
    (parse_instructions sampleDoc).map (fun s => s.step_number) = [1, 2, 3] := by
  have h := c2_step_numbering.1 sampleDoc
  simpa using h

/-- Counterexample to C2 as stated: on a container with three list items
whose second is empty after trimming, the code yields *three* steps numbered
1, 2, 3 — the empty item is recorded (with empty instruction text) and
consumes a step number, where the claim promised exactly two steps numbered
1 and 2. -/
theorem c2_counterexample :
    parse_instructions sampleDoc =
      [{ step_number := 1, instruction := "step one" },
       { step_number := 2, instruction := "" },
       { step_number := 3, instruction := "step three" }] ∧
    (parse_instructions sampleDoc).length = 3 := by decide

/-- Claim C3 (code bug): on `"3 foo bar"` the pattern finds amount `"3"`, no
unit, and name `"foo bar"`; the fallback then promotes `"foo"` to the unit
even though `"foo"` is not a key of the canonicalization table — the guard
`_normalize_unit(parts[0]) is not None` never fails on a non-empty token, in
contradiction with `_normalize_unit`'s documented contract of returning
`None` for unrecognized units. -/
theorem c3_unconditional_promotion :
    parseIngredientLine "3 foo bar" =
      { raw_text := "3 foo bar", amount := some "3", unit := some "foo",
        name := some "bar" } ∧
    unit_map.lookup "foo" = none := by decide

/-- Claim C4 (confirmed): a markup-parsing fault propagates out of the
extraction call unchanged (there is no `try`/`except` around the external
HTML parser), it is distinguishable by construction from both a returned
record and the "no recipe" signal, and on a successfully parsed document the
core itself never produces a hard failure. -/
theorem c4_markup_fault :
    (∀ (e : MarkupError) (url : String), parse_call (.error e) url = .error e) ∧
    (∀ (doc : Doc) (url : String), ∃ o, parse_call (.ok doc) url = .ok o) ∧
    (∀ (e : MarkupError) (url : String) (o : Option RecipeData),
      parse_call (.error e) url ≠ .ok o) :=
  ⟨fun _ _ => rfl, fun doc url => ⟨parse doc url, rfl⟩, fun _ _ _ h => nomatch h⟩

/-- Claim C5 (confirmed): whenever the amount group captured one of the
eighteen vulgar-fraction glyphs, the emitted amount is exactly the table's
decimal string, and for every pair of the table, parsing
`"<glyph> el suiker"` yields that decimal string with unit `"el"` and name
`"suiker"` (in particular `"⅓ el suiker"` yields `"0.333333"`). -/
theorem c5_fraction_table :
    (∀ (line g1 : String) (g2 g3 : Option String) (v : String),
      reMatch line = some (some g1, g2, g3) → (g1, v) ∈ fraction_map →
      (parseIngredientLine line).amount = some v) ∧
    (∀ p ∈ fraction_map,
      parseIngredientLine (p.1 ++ " el suiker") =
        { raw_text := p.1 ++ " el suiker", amount := some p.2,
          unit := some "el", name := some "suiker" }) := by
  constructor
  · intro line g1 g2 g3 v hm hv
    simp only [parseIngredientLine, hm]
    simp [lookup_fraction hv]
  · decide

/-- Witness for C5 at the glyph `⅓`. -/
theorem c5_witness :
    parseIngredientLine "⅓ el suiker" =
      { raw_text := "⅓ el suiker", amount := some "0.333333",
        unit := some "el", name := some "suiker" } :=
  c5_fraction_table.2 ("⅓", "0.333333") (by decide)

/-- Claim C6 (confirmed): the unit canonicalizer is total on non-empty
(whitespace-clean) tokens — a case-insensitive table key maps to its
canonical code and any other token passes through lower-cased, never
failing; at line level a table synonym in unit position comes out as the
canonical code. -/
theorem c6_unit_canonicalizer :
    (∀ t : String, t ≠ "" → pyStrip t = t →
      normalize_unit (some t) =
        some ((unit_map.lookup (toLowerStr t)).getD (toLowerStr t))) ∧
    (∀ t : String, t ≠ "" → pyStrip t = t →
      unit_map.lookup (toLowerStr t) = none →
      normalize_unit (some t) = some (toLowerStr t)) ∧
    (∀ k v : String, (k, v) ∈ unit_map → normalize_unit (some k) = some v) ∧
    parseIngredientLine "200 gr kip" =
      { raw_text := "200 gr kip", amount := some "200", unit := some "g",
        name := some "kip" } ∧
    parseIngredientLine "3 stukken ui" =
      { raw_text := "3 stukken ui", amount := some "3", unit := some "stuks",
        name := some "ui" } := by
  refine ⟨?_, ?_, ?_, by decide, by decide⟩
  · intro t ht hs
    simp only [normalize_unit, if_neg ht, hs]
  · intro t ht hs hl
    simp only [normalize_unit, if_neg ht, hs, hl, Option.getD_none]
  · intro k v h
    have h1 : k ≠ "" := by
      have hp := (show ∀ p ∈ unit_map, p.1 ≠ "" by decide) (k, v) h
      simpa using hp
    have h2 : pyStrip k = k := by
      have hp := (show ∀ p ∈ unit_map, pyStrip p.1 = p.1 by decide) (k, v) h
      simpa using hp
    have h3 : toLowerStr k = k := by
      have hp := (show ∀ p ∈ unit_map, toLowerStr p.1 = p.1 by decide) (k, v) h
      simpa using hp
    simp [normalize_unit, if_neg h1, h2, h3, lookup_of_mem (by decide) h]

/-- Witness for C6: an unknown token passes through lower-cased. -/
theorem c6_witness :
    normalize_unit (some "Onzin") = some "onzin" :=
  c6_unit_canonicalizer.2.1 "Onzin" (by decide) (by decide) (by decide)

/-- Claim C8 (confirmed): every recorded ingredient keeps a non-empty
`raw_text` equal to the trimmed text of one of the container's list items
(empty-after-trim items are dropped and never recorded), and absence of the
ingredients container or of its list yields the empty sequence, not an
error. -/
theorem c8_raw_text_invariant :
    (∀ (doc : Doc), ∀ x ∈ parse_ingredients doc, x.raw_text ≠ "") ∧
    (∀ (doc : Doc) (u ul : Node),
      findFirst (fun n => tagOf n = some "div" && getAttr n "id" = some "ingredients") doc
        = some u →
      findFirstIn (fun n => tagOf n = some "ul") u = some ul →
      ∀ x ∈ parse_ingredients doc,
        ∃ li ∈ findAllIn (fun n => tagOf n = some "li") ul,
          x.raw_text = getTextStrip li) ∧
    (∀ doc : Doc,
      findFirst (fun n => tagOf n = some "div" && getAttr n "id" = some "ingredients") doc
        = none →
      parse_ingredients doc = []) ∧
    (∀ (doc : Doc) (u : Node),
      findFirst (fun n => tagOf n = some "div" && getAttr n "id" = some "ingredients") doc
        = some u →
      findFirstIn (fun n => tagOf n = some "ul") u = none →
      parse_ingredients doc = []) := by
  refine ⟨?_, ?_, ?_, ?_⟩
  · intro doc x hx
    unfold parse_ingredients at hx
    split at hx
    · simp at hx
    · split at hx
      · simp at hx
      · obtain ⟨li, -, hif⟩ := List.mem_filterMap.mp hx
        split at hif
        next hne =>
          cases hif
          exact hne
        next =>
          cases hif
  · intro doc u ul hu hul x hx
    unfold parse_ingredients at hx
    simp only [hu, hul] at hx
    obtain ⟨li, hli, hif⟩ := List.mem_filterMap.mp hx
    refine ⟨li, hli, ?_⟩
    split at hif
    next =>
      cases hif
      rfl
    next =>
      cases hif
  · intro doc h
    unfold parse_ingredients
    simp only [h]
  · intro doc u hu hul
    unfold parse_ingredients
    simp only [hu, hul]

/-- Witness for C8 at the sample document: the first recorded ingredient's
`raw_text` corresponds to a list item of the container. -/
theorem c8_witness :
    ∃ li ∈ findAllIn (fun n => tagOf n = some "li") sampleUl,
      ({ raw_text := "200 gr kip", amount := some "200", unit := some "g",
         name := some "kip" } : IngredientData).raw_text = getTextStrip li :=
  c8_raw_text_invariant.2.1 sampleDoc sampleIngredientsDiv sampleUl rfl rfl _
    (by decide)

/-- Claim C7 (confirmed): the specified edge cases hold — a line of optional
leading whitespace followed by a name on which neither an amount nor a unit
alternative can be bound yields `amount=None, unit=None, name=<trimmed
line>`; the bare numeral `"3"` yields `amount="3", unit=None, name=None`;
and a qualitative amount word such as `"half"` is segmented like a numeral
(it is not a fraction-table key, and whenever the amount group captured
`"half"` the emitted amount stays `"half"`, never a decimal). -/
theorem c7_edge_cases :
    (∀ (line : String) (ws : List Char) (c : Char) (cs : List Char),
      line.data = ws ++ c :: cs → (∀ x ∈ ws, isPySpace x = true) →
      isWordChar c = true → noAmountAt (c :: cs) = true → noUnitAt (c :: cs) = true →
      ¬ '\n' ∈ c :: cs →
      parseIngredientLine line =
        { raw_text := line, amount := none, unit := none,
          name := some (pyStrip line) }) ∧
    parseIngredientLine "3" =
      { raw_text := "3", amount := some "3", unit := none, name := none } ∧
    fraction_map.lookup "half" = none ∧
    (∀ (line : String) (g2 g3 : Option String),
      reMatch line = some (some "half", g2, g3) →
      (parseIngredientLine line).amount = some "half") ∧
    parseIngredientLine "half citroen" =
      { raw_text := "half citroen", amount := some "half", unit := none,
        name := some "citroen" } := by
  refine ⟨?_, by decide, by decide, ?_, by decide⟩
  · intro line ws c cs hdata hws hw hna hnu hnl
    have hm := reMatch_name_only hdata hws hw hna hnu hnl
    have hne : (⟨c :: cs⟩ : String) ≠ "" := by
      intro h0
      simpa using congrArg String.data h0
    have hstrip : pyStrip (⟨c :: cs⟩ : String) = pyStrip line := by
      show (⟨stripChars (c :: cs)⟩ : String) = ⟨stripChars line.data⟩
      rw [hdata, stripChars_ws_append hws]
    simp only [parseIngredientLine, hm, normalize_unit, if_neg hne, hstrip]
    simp
  · intro line g2 g3 hm
    simp only [parseIngredientLine, hm]
    simp [show fraction_map.lookup "half" = none from rfl]

/-- Witness for C7: the name-only line `"zout naar smaak"`. -/
theorem c7_witness :
    parseIngredientLine "zout naar smaak" =
      { raw_text := "zout naar smaak", amount := none, unit := none,
        name := some "zout naar smaak" } := by
  have h := c7_edge_cases.1 "zout naar smaak" [] 'z' "out naar smaak".data
    (by decide) (by simp) (by decide) (by decide) (by decide) (by decide)
  exact h

/-- Claim C9, amended (corrected): `"snuifje"` is in both vocabularies and
the amount group wins — for every line `"snuifje "` followed by a single
word that is *not itself a unit token of the vocabulary*, the parser yields
`amount="snuifje", unit=None` and the word as name; in particular
`"snuifje zout"`.  (Leading `"snuifje"` is bound by the amount group, never
the unit group.) -/
theorem c9_snuifje_amount :
    (∀ w : String, w.data ≠ [] → (∀ x ∈ w.data, isWordChar x = true) →
      (∀ u ∈ unitLits, w.data.map toLowerChar ≠ u) →
      parseIngredientLine ("snuifje " ++ w) =
        { raw_text := "snuifje " ++ w, amount := some "snuifje", unit := none,
          name := some w }) ∧
    parseIngredientLine "snuifje zout" =
      { raw_text := "snuifje zout", amount := some "snuifje", unit := none,
        name := some "zout" } := by
  refine ⟨?_, by decide⟩
  intro w hne hword hnot
  have hm : reMatch ("snuifje " ++ w) = some (some "snuifje", none, some w) :=
    reMatch_snuifje hne hword hnot
  have hnsp : ∀ x ∈ w.data, isPySpace x = false :=
    fun x hx => not_pySpace_of_word (hword x hx)
  have hne' : w ≠ "" := by
    intro h0
    exact hne (by rw [h0])
  have hstrip : pyStrip w = w := pyStrip_no_space hnsp
  have hsplit : pySplitOnce w = [w] := pySplitOnce_no_space hne hnsp
  simp only [parseIngredientLine, hm, normalize_unit, if_neg hne', hstrip]
  simp [hsplit, hne', show List.lookup "snuifje" fraction_map = none from rfl]

/-- Witness for C9 at `"snuifje zout"`. -/
theorem c9_witness :
    parseIngredientLine ("snuifje " ++ "zout") =
      { raw_text := "snuifje " ++ "zout", amount := some "snuifje", unit := none,
        name := some "zout" } :=
  c9_snuifje_amount.1 "zout" (by decide) (by decide) (by decide)

/-- Counterexample to C9 as stated: the single word `"el"` after
`"snuifje "` is a unit token, so it is bound by the unit group — the parser
yields `unit="el"` and `name=None`, not `unit=None` with the word as name. -/
theorem c9_counterexample :
    parseIngredientLine "snuifje el" =
      { raw_text := "snuifje el", amount := some "snuifje", unit := some "el",
        name := none } ∧
    "el".data ∈ unitLits := by decide

/-- Claim C10, amended (corrected): the anchored pattern matches every
newline-free input whose first non-whitespace character is a word character
— but not every newline-free input: the `\b` in the pattern needs a word
character, so the pattern-failure branch is reachable (e.g. on `"."`). -/
theorem c10_pattern_totality :
    ∀ (line : String) (ws : List Char) (c : Char) (cs : List Char),
      line.data = ws ++ c :: cs → (∀ x ∈ ws, isPySpace x = true) →
      isWordChar c = true → ¬ '\n' ∈ line.data →
      (reMatch line).isSome = true :=
  fun _ _ _ _ h1 h2 h3 h4 => reMatch_isSome_of_word h1 h2 h3 h4

/-- Witness for C10 at `"zout"`. -/
theorem c10_witness : (reMatch "zout").isSome = true :=
  c10_pattern_totality "zout" [] 'z' "out".data (by decide) (by simp) (by decide)
    (by decide)

/-- Counterexample to C10 as stated: `"."` contains no newline, yet the
pattern does not match (the word boundary `\b` fails everywhere), and the
failure branch makes the whole line the name. -/
theorem c10_counterexample :
    reMatch "." = none ∧ ¬ '\n' ∈ ".".data ∧
    parseIngredientLine "." =
      { raw_text := ".", amount := none, unit := none, name := some "." } := by
  decide

end RecipeManager
